import Mathlib

/-!
Shallow embedding of the semantic-facade layer in `crates/hir/src/lib.rs`
(entity handles, type facade, diagnostic translation pipeline), together
with theorems settling the frozen claims about it.

Conventions:
* Interned ids (`FunctionId`, `ModuleId`, `PatId`, `ExprId`, ...) become `Nat`.
* The external query database is passed explicitly as a structure of pure
  functions, mirroring the `db: &dyn HirDatabase` argument.
* Rust `panic!` / `.expect(..)` sites are modelled by `Except Panic _`:
  a `.error` result is a process abort, an `.ok` result is normal return.
* `Option` models Rust `Option`; `Except Synthetic _` models the
  `Result<_, SyntheticSyntax>` returned by body source maps.
-/

/-- A process abort (Rust `panic!` / `.expect`). -/
inductive Panic where
  | panic : Panic
deriving DecidableEq, Repr

/-- The `SyntheticSyntax` error of body source maps: the node was created by
desugaring and has no corresponding source text. -/
inductive Synthetic where
  | synthetic : Synthetic
deriving DecidableEq, Repr

/-! ### C9: `as_assoc_item` and `AssocItem::container`

From `crates/hir/src/lib.rs`: the free function `as_assoc_item` inspects
`id.lookup(db).container` and yields `Some` only for trait/impl containers;
`AssocItem::container` panics (`panic!("invalid AssocItem")`) on module or
extern-block containers. -/

/-- `hir_def::ItemContainerId`. -/
inductive ItemContainerId where
  | TraitId (id : Nat)
  | ImplId (id : Nat)
  | ModuleId (id : Nat)
  | ExternBlockId (id : Nat)
deriving DecidableEq, Repr

/-- `hir::AssocItemContainer`. -/
inductive AssocItemContainer where
  | Trait (id : Nat)
  | Impl (id : Nat)
deriving DecidableEq, Repr

/-- The container lookup `id.lookup(db.upcast()).container`: the database
assigns every interned item id its container. -/
structure ContainerDb where
  container : Nat → ItemContainerId

/-- `fn as_assoc_item(db, ctor, id) -> Option<AssocItem>`: yields the item
(we keep the raw id; the `ctor` wrapping is identity-like) exactly for
trait/impl containers. -/
def as_assoc_item (db : ContainerDb) (id : Nat) : Option Nat :=
  match db.container id with
  | ItemContainerId.TraitId _ => some id
  | ItemContainerId.ImplId _ => some id
  | ItemContainerId.ModuleId _ => none
  | ItemContainerId.ExternBlockId _ => none

/-- `AssocItem::container`: panics (`panic!("invalid AssocItem")`) when the
underlying item's container is a module or extern block. -/
def AssocItem.container (db : ContainerDb) (id : Nat) : Except Panic AssocItemContainer :=
  match db.container id with
  | ItemContainerId.TraitId t => Except.ok (AssocItemContainer.Trait t)
  | ItemContainerId.ImplId i => Except.ok (AssocItemContainer.Impl i)
  | ItemContainerId.ModuleId _ => Except.error Panic.panic
  | ItemContainerId.ExternBlockId _ => Except.error Panic.panic

/-! ### C10: `Module::parent` and `Module::path_to_root`

From `crates/hir/src/lib.rs`: `parent` reads `def_map[local_id].parent`;
`path_to_root` starts from `self` and repeatedly pushes parents until none
remains. The def map's module arena is built top-down, so a module's parent
always has a smaller arena index — that is the "finite and acyclic by
construction" of the spec, and it is what makes the loop terminate. -/

/-- The fragment of `crate_def_map` that `parent`/`path_to_root` read: each
local module id's optional parent, with the arena-construction invariant
that parents precede children. -/
structure DefMap where
  parent : Nat → Option Nat
  parent_lt : ∀ i p, parent i = some p → p < i

/-- `Module::parent`. -/
def Module.parent (dm : DefMap) (m : Nat) : Option Nat :=
  dm.parent m

/-- `Module::path_to_root`: `vec![self]`, then push parents while they exist. -/
def Module.path_to_root (dm : DefMap) (m : Nat) : List Nat :=
  match h : Module.parent dm m with
  | none => [m]
  | some p => m :: Module.path_to_root dm p
termination_by m
decreasing_by exact dm.parent_lt m p h

/-! ### C8: `Local::representative`

`Local::representative` in `crates/hir/src/lib.rs` keeps the parent and
replaces the pattern id by `body.pattern_representative(pat_id)`. The body
structure itself lives in `hir_def` (outside this crate). -/

/-- Modelled from the spec: the body's or-pattern bookkeeping is missing
from this crate (`hir_def::body::Body`); per the spec, "Or-pattern bindings
create multiple pattern ids sharing one logical name (multi-local); every
multi-local has one canonical representative id that all name references
resolve to". We model the groups of sibling pattern ids; the representative
of a group is its first member, and a pattern outside any group represents
itself. -/
structure Body where
  or_pats : List (List Nat)

/-- The sibling group containing a pattern id, if any. -/
def Body.group_of (b : Body) (p : Nat) : Option (List Nat) :=
  b.or_pats.find? (fun g => p ∈ g)

/-- Modelled from the spec: `Body::pattern_representative` (in `hir_def`,
outside this crate) — the canonical id of `p`'s multi-local, or `p` itself
when `p` is not part of one. -/
def Body.pattern_representative (b : Body) (p : Nat) : Nat :=
  match b.group_of p with
  | some g => g.headD p
  | none => p

/-- Well-formedness of the or-pattern groups as the body-lowering code
builds them: groups are non-empty, and a pattern id belongs to at most one
group (sibling groups of distinct or-patterns are disjoint). -/
def Body.WF (b : Body) : Prop :=
  (∀ g ∈ b.or_pats, g ≠ []) ∧
    ∀ g ∈ b.or_pats, ∀ g' ∈ b.or_pats, ∀ x, x ∈ g → x ∈ g' → g = g'

/-- `hir::Local`: identified by (owning body, pattern id). -/
structure Local where
  parent : Nat
  pat_id : Nat
deriving DecidableEq, Repr

/-- The `db.body(..)` query: each body owner's lowered body. -/
structure BodyDb where
  body : Nat → Body

/-- `Local::representative`: `Local { pat_id: body.pattern_representative(self.pat_id), ..self }`. -/
def Local.representative (db : BodyDb) (l : Local) : Local :=
  { l with pat_id := (db.body l.parent).pattern_representative l.pat_id }

/-! ### C4: `Type::impls_trait` and `Type::impls_fnonce`

`impls_trait` builds a canonical trait goal and returns
`db.trait_solve(krate, goal).is_some()`. `impls_fnonce` delegates to
`method_resolution::implements_trait_unique`. -/

/-- The trait solver's outcome (`chalk`'s `Solution`): a definite unique
solution, or an ambiguous one. `trait_solve` returns `Option Solution`,
where `none` means no solution at all. -/
inductive Solution where
  | Unique (s : Nat)
  | Ambig (g : Nat)
deriving DecidableEq, Repr

/-- The slice of the database the predicate queries use: the trait solver,
keyed by an opaque canonical goal (`Nat`). -/
structure SolverDb where
  trait_solve : Nat → Option Solution

/-- `Type::impls_trait`: builds the canonical goal (goal construction is
opaque here — the caller supplies the already-built goal id) and collapses
the solver's outcome with `.is_some()`. -/
def Type.impls_trait (db : SolverDb) (goal : Nat) : Bool :=
  (db.trait_solve goal).isSome

/-- Modelled from the spec: `method_resolution::implements_trait_unique`
(in `hir_ty`, outside this crate) — the "unique solution required" variant
that "explicitly rejects ambiguity": true only on a unique solution. -/
def implements_trait_unique (db : SolverDb) (goal : Nat) : Bool :=
  match db.trait_solve goal with
  | some (Solution.Unique _) => true
  | _ => false

/-- `Type::impls_fnonce`: resolves the `FnOnce` trait and delegates to
`implements_trait_unique` on the canonical goal; `false` when the trait is
missing from the crate. -/
def Type.impls_fnonce (db : SolverDb) (fnonce_goal : Option Nat) : Bool :=
  match fnonce_goal with
  | none => false
  | some goal => implements_trait_unique db goal

/-! ### C2 / C5: `precise_macro_call_location` and `emit_def_diagnostic`

The syntax tree is embedded as the data these functions inspect: text
ranges, token lists of a derive attribute's token tree, an item's
`doc_comments_and_attrs()` stream (doc comments interleaved with
attributes), and path segments of a function-like macro call. `to_node`
lookups are folded into the node carried by the `MacroCallKind` value
(a fixed database snapshot). Identifier texts are opaque symbol ids. -/

/-- A source text range. -/
structure TextRange where
  lo : Nat
  hi : Nat
deriving DecidableEq, Repr

/-- One token of a derive attribute's token tree
(`children_with_tokens()` filtered to tokens). -/
inductive TokenKind where
  | comma
  | ident
  | other
deriving DecidableEq, Repr

/-- A token with its kind, range and (opaque) text. -/
structure Tok where
  kind : TokenKind
  range : TextRange
  text : Nat
deriving DecidableEq, Repr

/-- `ast::NameRef` of a path segment. -/
structure NameRef where
  range : TextRange
  text : Nat
deriving DecidableEq, Repr

/-- `ast::PathSegment`: its optional name-ref, and its `to_string` text. -/
structure PathSegment where
  name_ref : Option NameRef
  text : Nat
deriving DecidableEq, Repr

/-- `ast::Path` of a macro call (only the last segment is inspected). -/
structure MacroPath where
  segment : Option PathSegment
deriving DecidableEq, Repr

/-- `ast::MacroCall` as inspected by the `FnLike` arm: its node pointer
(opaque id) and its optional callee path. -/
structure FnLikeNode where
  ptr : Nat
  path : Option MacroPath
deriving DecidableEq, Repr

/-- `ast::Attr` as inspected here: its own range (node pointer),
`meta()?.token_tree()?` flattened to its token list, and
`path().and_then(segment).and_then(name_ref)`'s text. -/
structure AttrData where
  range : TextRange
  token_tree : Option (List Tok)
  path_text : Option Nat
deriving DecidableEq, Repr

/-- An item node carrying `doc_comments_and_attrs()`: `some` entries are
attributes (`Either::Left`), `none` entries are doc comments
(`Either::Right`). `ptr` is the whole item/invocation node pointer. -/
structure ItemNode where
  ptr : Nat
  attrs : List (Option AttrData)
deriving DecidableEq, Repr

/-- `hir_expand::MacroCallKind`, with the `to_node` results inlined. -/
inductive MacroCallKind where
  | FnLike (node : FnLikeNode)
  | Derive (node : ItemNode) (derive_attr_index : Nat) (derive_index : Nat)
  | Attr (node : ItemNode) (invoc_attr_index : Nat)
deriving DecidableEq, Repr

/-- `hir::MacroKind` (the fragment returned by the location helper). -/
inductive MacroKind where
  | ProcMacro
  | Derive
  | Attr
deriving DecidableEq, Repr

/-- Itertools `group_by` on the key `t.kind == T![,]`: maximal runs of
consecutive tokens sharing the key, in order, tagged with the key. -/
def token_groups : List Tok → List (Bool × List Tok)
  | [] => []
  | t :: ts =>
    match token_groups ts with
    | [] => [(t.kind == TokenKind.comma, [t])]
    | (k, g) :: rest =>
      if (t.kind == TokenKind.comma) == k then (k, t :: g) :: rest
      else (t.kind == TokenKind.comma, [t]) :: (k, g) :: rest

/-- The closure computing the precise token of the `Derive` arm: find the
derive attribute among `doc_comments_and_attrs`, take its token tree, group
tokens by comma-ness, keep non-comma groups, take the `derive_index`-th,
and find an identifier token in it. -/
def derive_precise_token (node : ItemNode) (derive_attr_index derive_index : Nat) :
    Option Tok := do
  let derive_attr ← (node.attrs.get? derive_attr_index).bind (fun a => a)
  let toks ← derive_attr.token_tree
  let (_, g) ← ((token_groups toks).filter (fun p => !p.1)).get? derive_index
  g.find? (fun t => t.kind == TokenKind.ident)

/-- `fn precise_macro_call_location`: returns (node pointer, optional
precise range, optional macro name, kind). The `Attr` arm panics
(`unwrap_or_else(|| panic!(..))`) when the recorded attribute index does
not name an attribute. -/
def precise_macro_call_location (ast : MacroCallKind) :
    Except Panic (Nat × Option TextRange × Option Nat × MacroKind) :=
  match ast with
  | MacroCallKind.FnLike node =>
    Except.ok (node.ptr,
      ((node.path.bind (fun p => p.segment)).bind (fun s => s.name_ref)).map
        (fun n => n.range),
      (node.path.bind (fun p => p.segment)).map (fun s => s.text),
      MacroKind.ProcMacro)
  | MacroCallKind.Derive node derive_attr_index derive_index =>
    let token := derive_precise_token node derive_attr_index derive_index
    Except.ok (node.ptr,
      token.map (fun t => t.range),
      token.map (fun t => t.text),
      MacroKind.Derive)
  | MacroCallKind.Attr node invoc_attr_index =>
    match (node.attrs.get? invoc_attr_index).bind (fun a => a) with
    | none => Except.error Panic.panic
    | some attr =>
      Except.ok (node.ptr, some attr.range, attr.path_text, MacroKind.Attr)

/-- The diagnostics relevant to the derive arms of `emit_def_diagnostic`. -/
inductive DefDiag where
  | MalformedDerive (node_range : TextRange)
  | InvalidDeriveTarget (node_range : TextRange)
deriving DecidableEq, Repr

/-- The `MalformedDerive` arm of `emit_def_diagnostic`:
`node.attrs().nth(id)` (attributes only, doc comments skipped) — if
present, push a diagnostic whose node pointer is the whole derive
attribute; if absent, `stdx::never!` logs and pushes nothing. -/
def emit_malformed_derive (node : ItemNode) (id : Nat) : List DefDiag :=
  match ((node.attrs.filterMap (fun a => a)).get? id) with
  | some derive => [DefDiag.MalformedDerive derive.range]
  | none => []

/-! ### C3: `Module::scope` and `ScopeDef::all_items` -/

/-- An (opaque) visibility record stored in a scope slot. -/
structure Vis where
  id : Nat
deriving DecidableEq, Repr

/-- `hir_def::per_ns::PerNs`: one name's slot — optional type-namespace,
value-namespace and macro-namespace definitions, each with a visibility. -/
structure PerNs where
  types : Option (Nat × Vis)
  values : Option (Nat × Vis)
  macros : Option (Nat × Vis)
deriving DecidableEq, Repr

/-- `PerNs::is_none`. -/
def PerNs.is_none (ns : PerNs) : Bool :=
  ns.types.isNone && ns.values.isNone && ns.macros.isNone

/-- `PerNs::filter_visibility`: keep each namespace entry whose visibility
satisfies the predicate. -/
def PerNs.filter_visibility (ns : PerNs) (p : Vis → Bool) : PerNs :=
  { types := ns.types.filter (fun e => p e.2),
    values := ns.values.filter (fun e => p e.2),
    macros := ns.macros.filter (fun e => p e.2) }

/-- `hir::ScopeDef` (the fragment `all_items` produces): a module-level
definition, a macro definition (`ModuleDef::Macro`), or the
present-but-inaccessible placeholder `Unknown`. -/
inductive ScopeDef where
  | ModuleDef (d : Nat)
  | MacroDef (d : Nat)
  | Unknown
deriving DecidableEq, Repr

/-- `ScopeDef::all_items`: type- and value-namespace entries deduplicated
when they coincide, then the macro entry, then `Unknown` when nothing was
pushed. -/
def ScopeDef.all_items (ns : PerNs) : List ScopeDef :=
  let base : List ScopeDef :=
    match ns.types.map Prod.fst, ns.values.map Prod.fst with
    | some m1, none => [ScopeDef.ModuleDef m1]
    | none, some m2 => [ScopeDef.ModuleDef m2]
    | some m1, some m2 =>
      if m1 ≠ m2 then [ScopeDef.ModuleDef m1, ScopeDef.ModuleDef m2]
      else [ScopeDef.ModuleDef m1]
    | none, none => []
  let items :=
    match ns.macros.map Prod.fst with
    | some m => base ++ [ScopeDef.MacroDef m]
    | none => base
  if items.isEmpty then [ScopeDef.Unknown] else items

/-- `Module::scope`: over the raw scope entries, apply visibility filtering
when a requesting module is given (its `is_visible_from` check is the
predicate), drop a name whose non-empty slot was fully filtered out, and
flatten each surviving slot through `all_items`. -/
def Module.scope (entries : List (Nat × PerNs)) (visible_from : Option (Vis → Bool)) :
    List (Nat × ScopeDef) :=
  (entries.filterMap (fun e =>
    match visible_from with
    | some p =>
      let filtered := e.2.filter_visibility p
      if filtered.is_none && !e.2.is_none then none else some (e.1, filtered)
    | none => some e)).flatMap
    (fun e => (ScopeDef.all_items e.2).map (fun item => (e.1, item)))

/-! ### C6: `Type::walk`

The chalk type tree is embedded with exactly the shape `walk_type`
inspects. A substitution is a list of generic arguments; `arg.ty(Interner)`
is modelled by `Option Ty` (`none` for lifetime/const arguments). A
where-clause (`QuantifiedWhereClause` after `skip_binders`) is modelled by
`Option (List (Option Ty))`: `some subst` is `Implemented(trait_ref)` with
`subst` the trait reference's substitution (index 0 is the Self type),
`none` is any other clause. The database answers `impl_trait_bounds` and
`associated_type_parent_trait(db).is_some()` consult a fixed snapshot, so
they are inlined into the node. -/

/-- The type tree (`TyKind` as consumed by `walk_type`). -/
inductive Ty where
  | adt (id : Nat) (substs : List (Option Ty))
  | assocType (id : Nat) (hasParentTrait : Bool) (substs : List (Option Ty))
  | opaqueTy (id : Nat) (bounds : Option (List (Option (List (Option Ty)))))
      (substs : List (Option Ty))
  | aliasOpaque (id : Nat) (bounds : Option (List (Option (List (Option Ty)))))
      (substs : List (Option Ty))
  | placeholder (id : Nat) (bounds : Option (List (Option (List (Option Ty)))))
  | dynTy (bounds : List (Option (List (Option Ty))))
  | refTy (t : Ty)
  | rawTy (t : Ty)
  | arrayTy (t : Ty)
  | sliceTy (t : Ty)
  | fnDef (id : Nat) (substs : List (Option Ty))
  | tuple (substs : List (Option Ty))
  | closure (substs : List (Option Ty))
  | fnPtr (substs : List (Option Ty))
  | scalar (k : Nat)
deriving Repr

/-- `TyExt::strip_references`: peel all leading shared references. -/
def Ty.strip_references : Ty → Ty
  | Ty.refTy t => Ty.strip_references t
  | t => t

theorem Ty.sizeOf_strip_references_le : ∀ (t : Ty),
    sizeOf (Ty.strip_references t) ≤ sizeOf t
  | Ty.refTy u => by
    have ih := Ty.sizeOf_strip_references_le u
    simp only [Ty.strip_references]
    have hu : sizeOf u < sizeOf (Ty.refTy u) := by
      simp only [Ty.refTy.sizeOf_spec]; omega
    omega
  | Ty.adt id s => by simp [Ty.strip_references]
  | Ty.assocType id b s => by simp [Ty.strip_references]
  | Ty.opaqueTy id b s => by simp [Ty.strip_references]
  | Ty.aliasOpaque id b s => by simp [Ty.strip_references]
  | Ty.placeholder id b => by simp [Ty.strip_references]
  | Ty.dynTy b => by simp [Ty.strip_references]
  | Ty.rawTy u => by simp [Ty.strip_references]
  | Ty.arrayTy u => by simp [Ty.strip_references]
  | Ty.sliceTy u => by simp [Ty.strip_references]
  | Ty.fnDef id s => by simp [Ty.strip_references]
  | Ty.tuple s => by simp [Ty.strip_references]
  | Ty.closure s => by simp [Ty.strip_references]
  | Ty.fnPtr s => by simp [Ty.strip_references]
  | Ty.scalar k => by simp [Ty.strip_references]

mutual

/-- `fn walk_type`: strip references, then emit according to the type
constructor — ADTs emit themselves before their arguments; associated
types emit themselves only when their parent trait resolves; opaque /
alias-opaque / placeholder types walk their impl-trait bounds (when the
database has bounds for them); dyn types walk their inline bounds;
pointer-like types recurse into the pointee; function/tuple/closure types
walk only their substitutions; everything else emits nothing. -/
def walk_type (t : Ty) : List Ty :=
  match h : Ty.strip_references t with
  | Ty.adt id substs => Ty.adt id substs :: walk_substs substs
  | Ty.assocType id hasParentTrait substs =>
    (if hasParentTrait then [Ty.assocType id hasParentTrait substs] else [])
      ++ walk_substs substs
  | Ty.opaqueTy id (some bs) substs =>
    walk_bounds (Ty.opaqueTy id (some bs) substs) bs ++ walk_substs substs
  | Ty.opaqueTy _ none substs => walk_substs substs
  | Ty.aliasOpaque id (some bs) substs =>
    walk_bounds (Ty.aliasOpaque id (some bs) substs) bs ++ walk_substs substs
  | Ty.aliasOpaque _ none substs => walk_substs substs
  | Ty.placeholder id (some bs) => walk_bounds (Ty.placeholder id (some bs)) bs
  | Ty.placeholder _ none => []
  | Ty.dynTy bounds => walk_bounds (Ty.dynTy bounds) bounds
  | Ty.refTy u => walk_type u
  | Ty.rawTy u => walk_type u
  | Ty.arrayTy u => walk_type u
  | Ty.sliceTy u => walk_type u
  | Ty.fnDef _ substs => walk_substs substs
  | Ty.tuple substs => walk_substs substs
  | Ty.closure substs => walk_substs substs
  | Ty.fnPtr substs => walk_substs substs
  | Ty.scalar _ => []
termination_by sizeOf t
decreasing_by
  all_goals
    (have hle := Ty.sizeOf_strip_references_le t
     rw [h] at hle
     simp only [Ty.adt.sizeOf_spec, Ty.assocType.sizeOf_spec, Ty.opaqueTy.sizeOf_spec,
       Ty.aliasOpaque.sizeOf_spec, Ty.placeholder.sizeOf_spec, Ty.dynTy.sizeOf_spec,
       Ty.refTy.sizeOf_spec, Ty.rawTy.sizeOf_spec, Ty.arrayTy.sizeOf_spec,
       Ty.sliceTy.sizeOf_spec, Ty.fnDef.sizeOf_spec, Ty.tuple.sizeOf_spec,
       Ty.closure.sizeOf_spec, Ty.fnPtr.sizeOf_spec, Option.some.sizeOf_spec] at hle
     omega)

/-- `fn walk_substs`: walk every type argument of a substitution, in
order, skipping non-type arguments (`filter_map(|a| a.ty(Interner))`). -/
def walk_substs (substs : List (Option Ty)) : List Ty :=
  match substs with
  | [] => []
  | none :: rest => walk_substs rest
  | some ty :: rest => walk_type ty ++ walk_substs rest
termination_by sizeOf substs
decreasing_by
  all_goals simp only [List.cons.sizeOf_spec, Option.some.sizeOf_spec,
    Option.none.sizeOf_spec]
  all_goals omega

/-- `fn walk_bounds`: for every `Implemented` clause, emit the bound's own
type (`cb(type_.clone())`) and then walk the trait reference's arguments
with the Self argument skipped (`substitution.iter().skip(1)`). -/
def walk_bounds (self : Ty) (bounds : List (Option (List (Option Ty)))) : List Ty :=
  match bounds with
  | [] => []
  | none :: rest => walk_bounds self rest
  | some subst :: rest =>
    (self :: (match subst with
              | [] => []
              | _ :: non_self => walk_substs non_self)) ++ walk_bounds self rest
termination_by sizeOf bounds
decreasing_by
  all_goals simp only [List.cons.sizeOf_spec, Option.some.sizeOf_spec,
    Option.none.sizeOf_spec]
  all_goals omega

end

/-- `Type::walk`: the emission sequence of the pre-order traversal (the
`cb` callback collected into a list). -/
def Type.walk (t : Ty) : List Ty :=
  walk_type t

/-! ### C7: `Type::iterate_method_candidates` -/

/-- `hir_def::AssocItemId`. -/
inductive AssocItemId where
  | FunctionId (f : Nat)
  | ConstId (c : Nat)
  | TypeAliasId (t : Nat)
deriving DecidableEq, Repr

/-- `std::ops::ControlFlow<()>` as returned by the inner callback. -/
inductive CtrlFlow where
  | brk
  | cont
deriving DecidableEq, Repr

/-- Modelled from the spec: the candidate list produced by
`hir_ty::method_resolution` (outside this crate) — "the engine iterates
(a) inherent impls for the type's defining crate(s) first, (b) then trait
impls"; candidates are enumerated in that order. -/
def method_resolution_candidates (inherent trait_cands : List AssocItemId) :
    List AssocItemId :=
  inherent ++ trait_cands

/-- Modelled from the spec: the enumeration loop of
`hir_ty::method_resolution::iterate_method_candidates_dyn` (outside this
crate) — invoke the caller's stateful callback on each candidate in order,
stopping at the first `ControlFlow::Break` ("explicit break/continue
signal"); the final callback state is returned. -/
def iterate_dyn_loop {σ : Type _} (cands : List AssocItemId)
    (cb : σ → AssocItemId → σ × CtrlFlow) (s : σ) : σ :=
  match cands with
  | [] => s
  | c :: rest =>
    match cb s c with
    | (s1, CtrlFlow.brk) => s1
    | (s1, CtrlFlow.cont) => iterate_dyn_loop rest cb s1

/-- `Type::iterate_method_candidates`: wraps the caller's
`FnMut(Function) -> Option<T>` into the `slot`-capturing inner callback —
on a function candidate accepted by the caller (`Some(res)`) store the
result and break; on anything else continue — and returns the slot. -/
def Type.iterate_method_candidates {T : Type _} (cands : List AssocItemId)
    (callback : Nat → Option T) : Option T :=
  iterate_dyn_loop cands
    (fun slot item =>
      match item with
      | AssocItemId.FunctionId f =>
        match callback f with
        | some res => (some res, CtrlFlow.brk)
        | none => (slot, CtrlFlow.cont)
      | _ => (slot, CtrlFlow.cont))
    none

/-- The function candidates of an enumeration, in order (the candidates on
which `iterate_method_candidates` consults the caller's callback). -/
def function_candidates (cands : List AssocItemId) : List Nat :=
  cands.filterMap (fun c =>
    match c with
    | AssocItemId.FunctionId f => some f
    | _ => none)

/-! ### C1: `DefWithBody::diagnostics`

The per-body diagnostic stage. Node ids and source pointers are opaque
(`Nat`); the body's source map answers `expr_syntax` / `pat_syntax` with
`Except Synthetic _` exactly as the `Result<_, SyntheticSyntax>` of the
source, and `field_syntax` with a bare pointer (its caller-visible type in
this crate is infallible). External syntax-tree inspections performed after
a successful mapping (`to_node` casts, `record_expr_field_list().is_some()`
and friends) are database predicates on the returned pointer. -/

/-- The body's source map as consumed by `DefWithBody::diagnostics`. -/
structure BodySourceMap where
  expr_src : Nat → Except Synthetic Nat
  pat_src : Nat → Except Synthetic (Option Nat)
  field_src : Nat → Nat

/-- `hir_ty::InferenceDiagnostic`. -/
inductive InferenceDiagnostic where
  | NoSuchField (expr : Nat)
  | BreakOutsideOfLoop (expr : Nat) (is_break : Bool)
  | MismatchedArgCount (call_expr : Nat) (expected found : Nat)
deriving DecidableEq, Repr

/-- `hir_ty::diagnostics::BodyValidationDiagnostic`. `record` is the
`Either<ExprId, PatId>` of a record literal/pattern; `variant` an opaque
variant id whose declared field list the database knows; `missed_fields`
the local field indices reported by the validator. -/
inductive BodyValidationDiagnostic where
  | RecordMissingFields (record : Sum Nat Nat) (variant : Nat) (missed_fields : List Nat)
  | ReplaceFilterMapNextWithFindMap (method_call_expr : Nat)
  | MissingMatchArms (match_e : Nat) (uncovered_patterns : Nat)
deriving DecidableEq, Repr

/-- The presentation-ready diagnostics `DefWithBody::diagnostics` pushes
(each anchored at a source pointer). Lowering-stage diagnostics
(inactive code, macro errors, unresolved macros) carry their node directly
and are kept opaque as `Lowering`. -/
inductive AnyDiagnostic where
  | Lowering (d : Nat)
  | NoSuchField (field : Nat)
  | BreakOutsideOfLoop (expr : Nat) (is_break : Bool)
  | MismatchedArgCount (call_expr : Nat) (expected found : Nat)
  | TypeMismatch (expr : Nat)
  | MissingUnsafe (expr : Nat)
  | MissingFields (field_list_parent : Sum Nat Nat) (missed_fields : List Nat)
  | ReplaceFilterMapNextWithFindMap (next_expr : Nat)
  | MissingMatchArms (match_e : Nat) (uncovered_patterns : Nat)
  | IncorrectCase (d : Nat)
deriving DecidableEq, Repr

/-- The external syntax/database facts the validation arms consult after a
successful source-map lookup. -/
structure SyntaxDb where
  field_name : Nat → Nat → Nat
  is_record_expr_with_field_list : Nat → Bool
  is_record_pat_with_field_list : Nat → Bool
  match_scrutinee : Nat → Option Nat

/-- The `for d in &infer.diagnostics` loop body: `NoSuchField` maps the
field infallibly; `BreakOutsideOfLoop` calls
`.expect("break outside of loop in synthetic syntax")` — a panic when the
node is synthetic; `MismatchedArgCount` drops on `Err(SyntheticSyntax)`. -/
def emit_inference_diag (sm : BodySourceMap) (d : InferenceDiagnostic) :
    Except Panic (List AnyDiagnostic) :=
  match d with
  | InferenceDiagnostic.NoSuchField expr =>
    Except.ok [AnyDiagnostic.NoSuchField (sm.field_src expr)]
  | InferenceDiagnostic.BreakOutsideOfLoop expr is_break =>
    match sm.expr_src expr with
    | Except.ok p => Except.ok [AnyDiagnostic.BreakOutsideOfLoop p is_break]
    | Except.error _ => Except.error Panic.panic
  | InferenceDiagnostic.MismatchedArgCount call_expr expected found =>
    match sm.expr_src call_expr with
    | Except.ok p => Except.ok [AnyDiagnostic.MismatchedArgCount p expected found]
    | Except.error _ => Except.ok []

/-- The `infer.expr_type_mismatches()` loop body: synthetic nodes
`continue` without emitting. -/
def emit_type_mismatch (sm : BodySourceMap) (expr : Nat) : List AnyDiagnostic :=
  match sm.expr_src expr with
  | Except.ok p => [AnyDiagnostic.TypeMismatch p]
  | Except.error _ => []

/-- The `missing_unsafe` loop body: synthetic nodes are dropped
(the FIXME-commented `Err(SyntheticSyntax)` arm). -/
def emit_missing_unsafe_diag (sm : BodySourceMap) (expr : Nat) : List AnyDiagnostic :=
  match sm.expr_src expr with
  | Except.ok p => [AnyDiagnostic.MissingUnsafe p]
  | Except.error _ => []

/-- The `BodyValidationDiagnostic::collect` loop body: every arm drops its
diagnostic on `Err(SyntheticSyntax)` (and on source-shape mismatches after
a successful mapping). -/
def emit_validation_diag (db : SyntaxDb) (sm : BodySourceMap)
    (d : BodyValidationDiagnostic) : List AnyDiagnostic :=
  match d with
  | BodyValidationDiagnostic.RecordMissingFields (Sum.inl record_expr) variant missed =>
    match sm.expr_src record_expr with
    | Except.ok p =>
      if db.is_record_expr_with_field_list p then
        [AnyDiagnostic.MissingFields (Sum.inl p) (missed.map (db.field_name variant))]
      else []
    | Except.error _ => []
  | BodyValidationDiagnostic.RecordMissingFields (Sum.inr record_pat) variant missed =>
    match sm.pat_src record_pat with
    | Except.ok (some p) =>
      if db.is_record_pat_with_field_list p then
        [AnyDiagnostic.MissingFields (Sum.inr p) (missed.map (db.field_name variant))]
      else []
    | Except.ok none => []
    | Except.error _ => []
  | BodyValidationDiagnostic.ReplaceFilterMapNextWithFindMap e =>
    match sm.expr_src e with
    | Except.ok p => [AnyDiagnostic.ReplaceFilterMapNextWithFindMap p]
    | Except.error _ => []
  | BodyValidationDiagnostic.MissingMatchArms e unc =>
    match sm.expr_src e with
    | Except.ok p =>
      match db.match_scrutinee p with
      | some sp => [AnyDiagnostic.MissingMatchArms sp unc]
      | none => []
    | Except.error _ => []

/-- The inputs of one `DefWithBody::diagnostics` run: the already-located
lowering-stage diagnostics, the inference diagnostics, the type-mismatch
expressions, the missing-unsafe expressions, the validation diagnostics,
and the incorrect-case diagnostics appended last. -/
structure BodyAnalysis where
  lowering : List AnyDiagnostic
  inference : List InferenceDiagnostic
  type_mismatches : List Nat
  missing_unsafe_ : List Nat
  validation : List BodyValidationDiagnostic
  incorrect_case : List Nat

/-- `DefWithBody::diagnostics`: the stages in source order, accumulated
into one vector; the whole run aborts (`Except.error`) if any stage
panics. -/
def DefWithBody.diagnostics (db : SyntaxDb) (sm : BodySourceMap) (a : BodyAnalysis) :
    Except Panic (List AnyDiagnostic) := do
  let inf ← a.inference.mapM (emit_inference_diag sm)
  pure (a.lowering
    ++ inf.flatten
    ++ (a.type_mismatches.map (emit_type_mismatch sm)).flatten
    ++ (a.missing_unsafe_.map (emit_missing_unsafe_diag sm)).flatten
    ++ (a.validation.map (emit_validation_diag db sm)).flatten
    ++ a.incorrect_case.map AnyDiagnostic.IncorrectCase)

/-- The spec's reference pipeline for the same inputs: identical except
that a `BreakOutsideOfLoop` at a synthetic node is dropped ("the
diagnostic is dropped, never emitted with a fabricated location") instead
of panicking. -/
def emit_inference_diag_spec (sm : BodySourceMap) (d : InferenceDiagnostic) :
    List AnyDiagnostic :=
  match d with
  | InferenceDiagnostic.NoSuchField expr =>
    [AnyDiagnostic.NoSuchField (sm.field_src expr)]
  | InferenceDiagnostic.BreakOutsideOfLoop expr is_break =>
    match sm.expr_src expr with
    | Except.ok p => [AnyDiagnostic.BreakOutsideOfLoop p is_break]
    | Except.error _ => []
  | InferenceDiagnostic.MismatchedArgCount call_expr expected found =>
    match sm.expr_src call_expr with
    | Except.ok p => [AnyDiagnostic.MismatchedArgCount p expected found]
    | Except.error _ => []

/-- The spec's reference pipeline: every synthetic-noded diagnostic of
every kind is dropped and collection continues. -/
def diagnostics_spec (db : SyntaxDb) (sm : BodySourceMap) (a : BodyAnalysis) :
    List AnyDiagnostic :=
  a.lowering
    ++ (a.inference.map (emit_inference_diag_spec sm)).flatten
    ++ (a.type_mismatches.map (emit_type_mismatch sm)).flatten
    ++ (a.missing_unsafe_.map (emit_missing_unsafe_diag sm)).flatten
    ++ (a.validation.map (emit_validation_diag db sm)).flatten
    ++ a.incorrect_case.map AnyDiagnostic.IncorrectCase

/-!
## Theorems settling the claims
-/

/-- C9: every `AssocItem`'s container resolves to a trait or an impl:
`as_assoc_item` returns `some` exactly when the underlying item's
container is a trait or an impl (and `none` for module / extern-block
containers), so `AssocItem::container` never reaches its
contract-violation `panic!` for an item constructed through
`as_assoc_item`. -/
theorem as_assoc_item_container_no_panic (db : ContainerDb) (id : Nat) :
    (∀ x, as_assoc_item db id = some x →
      x = id ∧ ∃ c, AssocItem.container db x = Except.ok c)
    ∧ (as_assoc_item db id = none ↔
        ((∃ m, db.container id = ItemContainerId.ModuleId m)
          ∨ ∃ e, db.container id = ItemContainerId.ExternBlockId e)) := by
  constructor
  · intro x hx
    unfold as_assoc_item at hx
    cases hc : db.container id <;> rw [hc] at hx <;> simp at hx <;>
      subst hx <;> refine ⟨rfl, ?_⟩ <;>
      exact ⟨_, by unfold AssocItem.container; rw [hc]⟩
  · unfold as_assoc_item
    cases hc : db.container id <;> simp [hc]

/-- C9 witness: a function interned with a trait container passes
`as_assoc_item`, and its `container` then returns without panicking. -/
theorem as_assoc_item_container_no_panic_witness :
    ∃ c, AssocItem.container ⟨fun _ => ItemContainerId.TraitId 4⟩ 0 = Except.ok c :=
  ((as_assoc_item_container_no_panic ⟨fun _ => ItemContainerId.TraitId 4⟩ 0).1
    0 rfl).2

/-- One-step unfolding: a module with no parent is its own whole path. -/
theorem path_to_root_parent_none (dm : DefMap) (m : Nat)
    (h : Module.parent dm m = none) : Module.path_to_root dm m = [m] := by
  rw [Module.path_to_root]
  split
  · rfl
  · next p hp => rw [h] at hp; cases hp

/-- One-step unfolding: a module with a parent prepends itself to the
parent's path. -/
theorem path_to_root_parent_some (dm : DefMap) (m p : Nat)
    (h : Module.parent dm m = some p) :
    Module.path_to_root dm m = m :: Module.path_to_root dm p := by
  rw [Module.path_to_root]
  split
  · next hn => rw [h] at hn; cases hn
  · next q hq => rw [h] at hq; cases hq; rfl

/-- C10: `path_to_root` returns a non-empty list starting at the module
itself, in which each element's parent is the next element, and whose last
element has no parent. -/
theorem path_to_root_chain (dm : DefMap) (m : Nat) :
    Module.path_to_root dm m ≠ []
    ∧ (Module.path_to_root dm m).head? = some m
    ∧ List.Chain' (fun a b => Module.parent dm a = some b) (Module.path_to_root dm m)
    ∧ ∃ r, (Module.path_to_root dm m).getLast? = some r ∧ Module.parent dm r = none := by
  induction m using Nat.strong_induction_on with
  | _ m ih =>
    cases hp : Module.parent dm m with
    | none =>
      rw [path_to_root_parent_none dm m hp]
      exact ⟨by simp, by simp, by simp, m, by simp, hp⟩
    | some p =>
      have hlt : p < m := dm.parent_lt m p hp
      obtain ⟨hne, hhead, hchain, r, hlast, hroot⟩ := ih p hlt
      rw [path_to_root_parent_some dm m p hp]
      refine ⟨by simp, by simp, ?_, r, ?_, hroot⟩
      · rw [List.chain'_cons']
        refine ⟨fun b hb => ?_, hchain⟩
        rw [hhead] at hb
        simp at hb
        rw [← hb]
        exact hp
      · obtain ⟨x, xs, hx⟩ := List.exists_cons_of_ne_nil hne
        rw [hx, List.getLast?_cons_cons]
        rw [hx] at hlast
        exact hlast

/-- Unfolding `pattern_representative` on a found group. -/
theorem pattern_representative_found (b : Body) (p : Nat) (g : List Nat)
    (hg : b.or_pats.find? (fun g => p ∈ g) = some g) :
    b.pattern_representative p = g.headD p := by
  unfold Body.pattern_representative Body.group_of
  rw [hg]

/-- Unfolding `pattern_representative` outside any group. -/
theorem pattern_representative_not_found (b : Body) (p : Nat)
    (hg : b.or_pats.find? (fun g => p ∈ g) = none) :
    b.pattern_representative p = p := by
  unfold Body.pattern_representative Body.group_of
  rw [hg]

/-- C8: `Local::representative` is idempotent and keeps the owning body:
for well-formed or-pattern groups (non-empty, pairwise disjoint — the
shape body lowering produces), `representative (representative l) =
representative l`, and the representative has the same parent as `l`. -/
theorem representative_idempotent (db : BodyDb) (l : Local)
    (hwf : (db.body l.parent).WF) :
    Local.representative db (Local.representative db l) = Local.representative db l
    ∧ (Local.representative db l).parent = l.parent := by
  refine ⟨?_, rfl⟩
  unfold Local.representative
  simp only
  congr 1
  cases hg : (db.body l.parent).or_pats.find? (fun g => l.pat_id ∈ g) with
  | none =>
    rw [pattern_representative_not_found _ _ hg, pattern_representative_not_found _ _ hg]
  | some g =>
    have hgmem : g ∈ (db.body l.parent).or_pats := List.mem_of_find?_eq_some hg
    have hgne : g ≠ [] := hwf.1 g hgmem
    obtain ⟨a, g0, hg0⟩ := List.exists_cons_of_ne_nil hgne
    rw [pattern_representative_found _ _ _ hg, hg0]
    simp only [List.headD_cons]
    cases hg2 : (db.body l.parent).or_pats.find? (fun g2 => a ∈ g2) with
    | none =>
      exfalso
      have := List.find?_eq_none.mp hg2 g hgmem
      simp at this
      exact this (by rw [hg0]; exact List.mem_cons_self a g0)
    | some g2 =>
      have hg2mem : g2 ∈ (db.body l.parent).or_pats := List.mem_of_find?_eq_some hg2
      have ha2 : a ∈ g2 := by
        have := List.find?_some hg2
        simpa using this
      have heq : g = g2 :=
        hwf.2 g hgmem g2 hg2mem a (by rw [hg0]; exact List.mem_cons_self a g0) ha2
      rw [pattern_representative_found _ _ _ hg2, ← heq, hg0]
      simp

/-- C8 witness: an or-pattern multi-local `{1, 2, 3}` in body 0; the
representative of pattern 2 is pattern 1, and taking the representative
again is a fixed point with the same parent. -/
theorem representative_idempotent_witness :
    Local.representative ⟨fun _ => ⟨[[1, 2, 3]]⟩⟩
        (Local.representative ⟨fun _ => ⟨[[1, 2, 3]]⟩⟩ ⟨0, 2⟩)
      = Local.representative ⟨fun _ => ⟨[[1, 2, 3]]⟩⟩ ⟨0, 2⟩
    ∧ (Local.representative ⟨fun _ => ⟨[[1, 2, 3]]⟩⟩ ⟨0, 2⟩).parent = 0 :=
  representative_idempotent ⟨fun _ => ⟨[[1, 2, 3]]⟩⟩ ⟨0, 2⟩
    ⟨by decide, by decide⟩

/-- A solver that answers every goal ambiguously. -/
def ambig_solver : SolverDb :=
  ⟨fun _ => some (Solution.Ambig 0)⟩

/-- C4 counterexample: on an ambiguous solver outcome `impls_trait`
returns `true` — `db.trait_solve(..).is_some()` does not distinguish a
definite positive from an ambiguous solution — while the unique-solution
variant used by `impls_fnonce` returns `false`. The claim that "an
ambiguous or undetermined solver outcome yields false" for `impls_trait`
is therefore false. -/
theorem impls_trait_ambiguous_counterexample :
    ambig_solver.trait_solve 0 = some (Solution.Ambig 0)
    ∧ Type.impls_trait ambig_solver 0 = true
    ∧ Type.impls_fnonce ambig_solver (some 0) = false := by
  refine ⟨rfl, rfl, rfl⟩

/-- C4 amended: `impls_trait` collapses the solver's outcome with
`.is_some()` — true iff the solver returns *any* solution, ambiguous ones
included; only a no-solution outcome yields false. `impls_fnonce` uses the
distinct unique-solution variant, true only on a definite unique solution
(ambiguity rejected), and false when the `FnOnce` trait is missing. -/
theorem impls_trait_solver_collapse (db : SolverDb) (goal : Nat) :
    (Type.impls_trait db goal = true ↔ db.trait_solve goal ≠ none)
    ∧ (Type.impls_fnonce db (some goal) = true ↔
        ∃ s, db.trait_solve goal = some (Solution.Unique s))
    ∧ (∀ g, db.trait_solve goal = some (Solution.Ambig g) →
        Type.impls_fnonce db (some goal) = false)
    ∧ Type.impls_fnonce db none = false := by
  refine ⟨?_, ?_, ?_, rfl⟩
  · unfold Type.impls_trait
    cases db.trait_solve goal <;> simp
  · cases h : db.trait_solve goal with
    | none => simp [Type.impls_fnonce, implements_trait_unique, h]
    | some s =>
      cases s <;> simp [Type.impls_fnonce, implements_trait_unique, h]
  · intro g hg
    simp [Type.impls_fnonce, implements_trait_unique, hg]

/-- C4 amended witness: a solver with a unique solution for goal 0 makes
`impls_fnonce` true, and an ambiguous outcome makes it false. -/
theorem impls_trait_solver_collapse_witness :
    Type.impls_fnonce ⟨fun _ => some (Solution.Unique 3)⟩ (some 0) = true
    ∧ Type.impls_fnonce ambig_solver (some 0) = false :=
  ⟨(impls_trait_solver_collapse ⟨fun _ => some (Solution.Unique 3)⟩ 0).2.1.mpr
      ⟨3, rfl⟩,
    (impls_trait_solver_collapse ambig_solver 0).2.2.1 0 rfl⟩

/-- An annotated item carrying no attributes at all. -/
def bare_item : ItemNode :=
  ⟨7, []⟩

/-- C2 counterexample: for an attribute-macro invocation whose recorded
attribute index does not exist on the item (source shape mismatch),
`precise_macro_call_location` panics
(`unwrap_or_else(|| panic!("cannot find attribute .."))`) instead of
falling back to the macro-invocation node's range; the claim's "every
macro invocation kind" is therefore false for the attribute kind. -/
theorem precise_macro_call_location_attr_panics :
    precise_macro_call_location (MacroCallKind.Attr bare_item 0)
      = Except.error Panic.panic := by
  rfl

/-- Unfolding of the `Attr` arm of `precise_macro_call_location`. -/
theorem precise_macro_call_location_attr_eq (anode : ItemNode) (j : Nat) :
    precise_macro_call_location (MacroCallKind.Attr anode j)
      = match (anode.attrs.get? j).bind (fun a => a) with
        | none => Except.error Panic.panic
        | some attr =>
          Except.ok (anode.ptr, some attr.range, attr.path_text, MacroKind.Attr) := by
  rfl

/-- C2 amended: for the function-like and derive invocation kinds,
`precise_macro_call_location` always returns a location anchored at the
full macro-invocation node — when the precise token cannot be located the
sub-range is simply absent, never a suppression or a crash; for the
attribute kind the same holds whenever the recorded attribute exists, but
a missing attribute at the recorded index panics. -/
theorem precise_macro_call_location_fallback (fnode : FnLikeNode)
    (dnode : ItemNode) (i n : Nat) (anode : ItemNode) (j : Nat) :
    (∃ pr nm, precise_macro_call_location (MacroCallKind.FnLike fnode)
        = Except.ok (fnode.ptr, pr, nm, MacroKind.ProcMacro))
    ∧ (∃ pr nm, precise_macro_call_location (MacroCallKind.Derive dnode i n)
        = Except.ok (dnode.ptr, pr, nm, MacroKind.Derive))
    ∧ (∀ attr, (anode.attrs.get? j).bind (fun a => a) = some attr →
        precise_macro_call_location (MacroCallKind.Attr anode j)
          = Except.ok (anode.ptr, some attr.range, attr.path_text, MacroKind.Attr))
    ∧ ((anode.attrs.get? j).bind (fun a => a) = none →
        precise_macro_call_location (MacroCallKind.Attr anode j)
          = Except.error Panic.panic) := by
  refine ⟨⟨_, _, rfl⟩, ⟨_, _, rfl⟩, ?_, ?_⟩
  · intro attr hattr
    rw [precise_macro_call_location_attr_eq, hattr]
  · intro hnone
    rw [precise_macro_call_location_attr_eq, hnone]

/-- C2 amended witness: a present attribute at index 0 yields its own
range as the location. -/
theorem precise_macro_call_location_fallback_witness :
    precise_macro_call_location
        (MacroCallKind.Attr ⟨7, [some ⟨⟨0, 9⟩, none, some 5⟩]⟩ 0)
      = Except.ok (7, some ⟨0, 9⟩, some 5, MacroKind.Attr) :=
  (precise_macro_call_location_fallback ⟨0, none⟩ ⟨0, []⟩ 0 0
      ⟨7, [some ⟨⟨0, 9⟩, none, some 5⟩]⟩ 0).2.2.1
    ⟨⟨0, 9⟩, none, some 5⟩ rfl

/-- The `Bar` identifier token of `#[derive(Foo, Bar)]` (text offsets of
that literal attribute). -/
def bar_token : Tok :=
  ⟨TokenKind.ident, ⟨15, 18⟩, 2⟩

/-- The whole `#[derive(Foo, Bar)]` attribute: range 0..19, token tree
`(Foo, Bar)` flattened to its tokens. -/
def derive_foo_bar_attr : AttrData :=
  ⟨⟨0, 19⟩,
    some [⟨TokenKind.other, ⟨9, 10⟩, 0⟩, ⟨TokenKind.ident, ⟨10, 13⟩, 1⟩,
      ⟨TokenKind.comma, ⟨13, 14⟩, 0⟩, ⟨TokenKind.other, ⟨14, 15⟩, 0⟩,
      bar_token, ⟨TokenKind.other, ⟨18, 19⟩, 0⟩],
    none⟩

/-- An item annotated with exactly `#[derive(Foo, Bar)]`. -/
def derive_foo_bar_item : ItemNode :=
  ⟨3, [some derive_foo_bar_attr]⟩

/-- C5 counterexample: for `#[derive(Foo, Bar)]` with a malformed second
entry, the emitted malformed-derive diagnostic is anchored at the whole
attribute (range 0..19), not at the `Bar` token (range 15..18): the
`MalformedDerive` arm of `emit_def_diagnostic` uses the whole attribute
node and never consults the precise-token computation (which would have
located exactly `Bar`). -/
theorem malformed_derive_whole_attribute_counterexample :
    emit_malformed_derive derive_foo_bar_item 0
      = [DefDiag.MalformedDerive ⟨0, 19⟩]
    ∧ derive_precise_token derive_foo_bar_item 0 1 = some bar_token
    ∧ bar_token.range = ⟨15, 18⟩
    ∧ (⟨0, 19⟩ : TextRange) ≠ ⟨15, 18⟩ := by
  refine ⟨by decide, by decide, by decide, by decide⟩

/-- C5 amended: the malformed-derive diagnostic is anchored at the whole
recorded-index-th derive attribute of the item (and silently skipped when
that attribute is gone — the `stdx::never!` soft assertion); the
Nth-comma-separated-identifier narrowing is computed only by
`precise_macro_call_location`'s derive arm (used for the macro-invocation
diagnostics), which on the `#[derive(Foo, Bar)]` fixture locates exactly
the `Bar` token for derive index 1. -/
theorem malformed_derive_anchor (node : ItemNode) (idx : Nat) :
    (∀ attr, (node.attrs.filterMap (fun a => a)).get? idx = some attr →
        emit_malformed_derive node idx = [DefDiag.MalformedDerive attr.range])
    ∧ ((node.attrs.filterMap (fun a => a)).get? idx = none →
        emit_malformed_derive node idx = [])
    ∧ derive_precise_token derive_foo_bar_item 0 1 = some bar_token := by
  refine ⟨?_, ?_, by decide⟩
  · intro attr hattr
    unfold emit_malformed_derive
    rw [hattr]
  · intro hnone
    unfold emit_malformed_derive
    rw [hnone]

/-- C5 amended witness: on the `#[derive(Foo, Bar)]` item the emitted
diagnostic carries the whole attribute's range. -/
theorem malformed_derive_anchor_witness :
    emit_malformed_derive derive_foo_bar_item 0
      = [DefDiag.MalformedDerive derive_foo_bar_attr.range] :=
  (malformed_derive_anchor derive_foo_bar_item 0).1 derive_foo_bar_attr (by decide)

/-- A scope slot holding a single private type-namespace definition. -/
def hidden_slot : PerNs :=
  ⟨some (5, ⟨0⟩), none, none⟩

/-- C3 counterexample: a name whose only entry is removed by visibility
filtering vanishes from `Module::scope` entirely — it is **not** replaced
by a present-but-hidden placeholder: the filter (`if filtered.is_none() &&
!def.is_none() { None }`) drops the pair before `all_items` could emit
`ScopeDef::Unknown`. -/
theorem scope_fully_hidden_dropped_counterexample :
    Module.scope [(0, hidden_slot)] (some (fun _ => false)) = []
    ∧ (0, ScopeDef.Unknown) ∉ Module.scope [(0, hidden_slot)] (some (fun _ => false)) := by
  refine ⟨rfl, ?_⟩
  intro hmem
  have h : Module.scope [(0, hidden_slot)] (some (fun _ => false)) = [] := rfl
  rw [h] at hmem
  exact List.not_mem_nil _ hmem

/-- A slot that is empty in all three namespaces filters to itself and
flattens to the `Unknown` placeholder. -/
theorem all_items_of_empty_slot (ns : PerNs) (p : Vis → Bool)
    (h : ns.is_none = true) :
    ScopeDef.all_items (ns.filter_visibility p) = [ScopeDef.Unknown] := by
  obtain ⟨t, v, m⟩ := ns
  simp only [PerNs.is_none, Bool.and_eq_true, Option.isNone_iff_eq_none] at h
  obtain ⟨⟨ht, hv⟩, hm⟩ := h
  subst ht hv hm
  rfl

/-- C3 amended: under visibility filtering a name whose non-empty slot
loses every entry is **omitted** from `Module::scope` (not replaced by a
placeholder); the `Unknown` placeholder arises exactly for a slot that is
already empty in all namespaces; and a name whose slot survives filtering
appears with precisely the `all_items` of its filtered slot. -/
theorem scope_visibility_filtering (entries : List (Nat × PerNs)) (p : Vis → Bool)
    (name : Nat) (ns : PerNs) (hmem : (name, ns) ∈ entries) :
    ((entries.map Prod.fst).Nodup → (ns.filter_visibility p).is_none = true →
        ns.is_none = false → ∀ item, (name, item) ∉ Module.scope entries (some p))
    ∧ (ns.is_none = true →
        (name, ScopeDef.Unknown) ∈ Module.scope entries (some p))
    ∧ ((ns.filter_visibility p).is_none = false →
        ∀ item, item ∈ ScopeDef.all_items (ns.filter_visibility p) →
          (name, item) ∈ Module.scope entries (some p)) := by
  refine ⟨?_, ?_, ?_⟩
  · intro hnodup hfilt hraw item hin
    unfold Module.scope at hin
    rw [List.mem_flatMap] at hin
    obtain ⟨e, he, hin2⟩ := hin
    rw [List.mem_filterMap] at he
    obtain ⟨orig, ho, hfo⟩ := he
    obtain ⟨n2, ns2⟩ := orig
    simp only at hfo
    rw [List.mem_map] at hin2
    obtain ⟨a, _, hpair⟩ := hin2
    by_cases hc : ((ns2.filter_visibility p).is_none && !ns2.is_none) = true
    · rw [if_pos hc] at hfo
      cases hfo
    · rw [if_neg hc] at hfo
      cases hfo
      have hn2 : n2 = name := (Prod.mk.injEq _ _ _ _).mp hpair |>.1
      subst hn2
      have : (n2, ns2) = (n2, ns) :=
        List.inj_on_of_nodup_map hnodup ho hmem rfl
      cases this
      rw [hfilt, hraw] at hc
      simp at hc
  · intro hraw
    have hfilt : (ns.filter_visibility p).is_none = true := by
      obtain ⟨t, v, m⟩ := ns
      simp only [PerNs.is_none, Bool.and_eq_true, Option.isNone_iff_eq_none] at hraw
      obtain ⟨⟨ht, hv⟩, hm⟩ := hraw
      subst ht hv hm
      rfl
    unfold Module.scope
    rw [List.mem_flatMap]
    refine ⟨(name, ns.filter_visibility p), ?_, ?_⟩
    · rw [List.mem_filterMap]
      refine ⟨(name, ns), hmem, ?_⟩
      simp only
      rw [if_neg]
      rw [hraw]
      simp
    · rw [List.mem_map]
      exact ⟨ScopeDef.Unknown, by rw [all_items_of_empty_slot ns p hraw]; simp, rfl⟩
  · intro hfilt item hitem
    unfold Module.scope
    rw [List.mem_flatMap]
    refine ⟨(name, ns.filter_visibility p), ?_, ?_⟩
    · rw [List.mem_filterMap]
      refine ⟨(name, ns), hmem, ?_⟩
      simp only
      rw [if_neg]
      rw [hfilt]
      simp
    · rw [List.mem_map]
      exact ⟨item, hitem, rfl⟩

/-- C3 amended witness: a name with a surviving public entry keeps that
entry in the filtered scope. -/
theorem scope_visibility_filtering_witness :
    (0, ScopeDef.ModuleDef 5) ∈
      Module.scope [(0, hidden_slot)] (some (fun _ => true)) :=
  (scope_visibility_filtering [(0, hidden_slot)] (fun _ => true) 0 hidden_slot
      (by decide)).2.2 (by decide) (ScopeDef.ModuleDef 5) (by decide)

/-- Equation: `walk_substs` on an empty substitution. -/
theorem walk_substs_nil : walk_substs [] = [] := by
  rw [walk_substs.eq_def]

/-- Equation: `walk_substs` skips a non-type argument. -/
theorem walk_substs_cons_none (rest : List (Option Ty)) :
    walk_substs (none :: rest) = walk_substs rest := by
  rw [walk_substs.eq_def]

/-- Equation: `walk_substs` walks a type argument, then the rest. -/
theorem walk_substs_cons_some (t : Ty) (rest : List (Option Ty)) :
    walk_substs (some t :: rest) = walk_type t ++ walk_substs rest := by
  rw [walk_substs.eq_def]

/-- Equation: `walk_bounds` on no bounds. -/
theorem walk_bounds_nil (self : Ty) : walk_bounds self [] = [] := by
  rw [walk_bounds.eq_def]

/-- Equation: `walk_bounds` on an `Implemented` bound emits the bound's
own type first and then walks only the non-Self arguments. -/
theorem walk_bounds_cons_some (self : Ty) (s0 : Option Ty)
    (non_self : List (Option Ty)) (rest : List (Option (List (Option Ty)))) :
    walk_bounds self (some (s0 :: non_self) :: rest)
      = (self :: walk_substs non_self) ++ walk_bounds self rest := by
  rw [walk_bounds.eq_def]

/-- One-step unfolding: an ADT emits itself first, its arguments after. -/
theorem walk_type_adt (idn : Nat) (substs : List (Option Ty)) :
    walk_type (Ty.adt idn substs) = Ty.adt idn substs :: walk_substs substs := by
  rw [walk_type]
  split <;> rename_i heq <;>
    rw [show Ty.strip_references (Ty.adt idn substs) = Ty.adt idn substs from rfl] at heq <;>
    (try cases heq) <;> rfl

/-- One-step unfolding: a scalar emits nothing. -/
theorem walk_type_scalar (k : Nat) : walk_type (Ty.scalar k) = [] := by
  rw [walk_type]
  split <;> rename_i heq <;>
    rw [show Ty.strip_references (Ty.scalar k) = Ty.scalar k from rfl] at heq <;>
    (try cases heq) <;> rfl

/-- One-step unfolding of a trait-bound walk on a placeholder: the bound's
own type is emitted first, then the bound's arguments **minus its Self
argument** (`substitution.iter().skip(1)`), then the remaining bounds. -/
theorem walk_type_placeholder_bound (idn : Nat) (s0 : Option Ty)
    (args : List (Option Ty)) (rest : List (Option (List (Option Ty)))) :
    walk_type (Ty.placeholder idn (some (some (s0 :: args) :: rest)))
      = (Ty.placeholder idn (some (some (s0 :: args) :: rest)) :: walk_substs args)
        ++ walk_bounds (Ty.placeholder idn (some (some (s0 :: args) :: rest))) rest := by
  rw [walk_type]
  split <;> rename_i heq <;>
    rw [show Ty.strip_references (Ty.placeholder idn (some (some (s0 :: args) :: rest)))
          = Ty.placeholder idn (some (some (s0 :: args) :: rest)) from rfl] at heq <;>
    (try cases heq) <;> rw [walk_bounds_cons_some]

/-- The `U` in `Vec<T: Trait<U>>` (an ADT so that the walk emits it). -/
def tyU : Ty := Ty.adt 2 []

/-- The Self argument of `T`'s trait bound (an ADT distinguishable from
every other node of the fixture, so that the walk *would* emit it if it
were not skipped). -/
def tySelfArg : Ty := Ty.adt 99 []

/-- `T`: a placeholder whose impl-trait bounds are
`[Implemented(Trait<Self := tySelfArg, U>)]`. -/
def tyT : Ty := Ty.placeholder 7 (some [some [some tySelfArg, some tyU]])

/-- `Vec<T>`: an ADT applied to `T`. -/
def tyVec : Ty := Ty.adt 1 [some tyT]

/-- C6: `Type::walk` emits in parent-before-child pre-order — an ADT is
emitted before the types instantiating its generic arguments, and a
trait-bound-derived type is emitted before the types filling the bound's
non-Self arguments while the bound's Self argument is always skipped; on
the `Vec<T: Trait<U>>` fixture the emission is exactly
`[Vec<T>, T, U]` and the bound's Self argument is never emitted. -/
theorem walk_preorder_contract :
    (∀ idn substs, Type.walk (Ty.adt idn substs)
        = Ty.adt idn substs :: walk_substs substs)
    ∧ (∀ idn s0 args rest,
        Type.walk (Ty.placeholder idn (some (some (s0 :: args) :: rest)))
          = (Ty.placeholder idn (some (some (s0 :: args) :: rest)) :: walk_substs args)
            ++ walk_bounds (Ty.placeholder idn (some (some (s0 :: args) :: rest))) rest)
    ∧ Type.walk tyVec = [tyVec, tyT, tyU]
    ∧ tySelfArg ∉ Type.walk tyVec := by
  have hU : walk_type tyU = [tyU] := by
    rw [tyU, walk_type_adt, walk_substs_nil]
  have hT : walk_type tyT = [tyT, tyU] := by
    rw [tyT, walk_type_placeholder_bound, walk_bounds_nil,
      walk_substs_cons_some, walk_substs_nil]
    rw [show Ty.placeholder 7 (some [some [some tySelfArg, some tyU]]) = tyT from rfl]
    rw [hU]
    rfl
  have hVec : Type.walk tyVec = [tyVec, tyT, tyU] := by
    show walk_type tyVec = [tyVec, tyT, tyU]
    rw [tyVec, walk_type_adt, walk_substs_cons_some, walk_substs_nil]
    rw [show Ty.adt 1 [some tyT] = tyVec from rfl, hT]
    rfl
  refine ⟨fun idn substs => walk_type_adt idn substs,
    fun idn s0 args rest => walk_type_placeholder_bound idn s0 args rest,
    hVec, ?_⟩
  rw [hVec]
  intro h
  simp only [List.mem_cons, List.not_mem_nil, or_false] at h
  rcases h with h | h | h <;> simp [tySelfArg, tyVec, tyT, tyU] at h

/-- C6 witness: the fixture emission evaluated. -/
theorem walk_preorder_contract_witness :
    Type.walk tyVec = [tyVec, tyT, tyU] :=
  walk_preorder_contract.2.2.1

/-- `findSome?` over an appended list: the left part wins when it yields. -/
theorem list_findSome_append {α β : Type _} (l1 l2 : List α) (f : α → Option β) :
    (l1 ++ l2).findSome? f
      = match l1.findSome? f with
        | some v => some v
        | none => l2.findSome? f := by
  induction l1 with
  | nil => simp
  | cons a l ih =>
    rw [List.cons_append, List.findSome?_cons, List.findSome?_cons]
    cases f a with
    | some v => rfl
    | none => rw [ih]

/-- The wrapped enumeration computes the first accepted function
candidate. -/
theorem iterate_dyn_loop_findSome {T : Type _} (cands : List AssocItemId)
    (callback : Nat → Option T) :
    Type.iterate_method_candidates cands callback
      = (function_candidates cands).findSome? callback := by
  induction cands with
  | nil => rfl
  | cons c rest ih =>
    cases c with
    | FunctionId f =>
      cases hcb : callback f with
      | some v =>
        simp [Type.iterate_method_candidates, iterate_dyn_loop, function_candidates,
          List.findSome?_cons, hcb]
      | none =>
        have hstep : Type.iterate_method_candidates (AssocItemId.FunctionId f :: rest)
            callback = Type.iterate_method_candidates rest callback := by
          simp [Type.iterate_method_candidates, iterate_dyn_loop, hcb]
        rw [hstep, ih]
        have hfc : function_candidates (AssocItemId.FunctionId f :: rest)
            = f :: function_candidates rest := rfl
        rw [hfc, List.findSome?_cons, hcb]
    | ConstId c => exact ih
    | TypeAliasId t => exact ih

/-- `function_candidates` distributes over the inherent-then-trait
concatenation. -/
theorem function_candidates_append (l1 l2 : List AssocItemId) :
    function_candidates (l1 ++ l2)
      = function_candidates l1 ++ function_candidates l2 :=
  List.filterMap_append l1 l2 _

/-- C7: `iterate_method_candidates` consults the caller's callback on the
function candidates in enumeration order — inherent candidates before
trait candidates — and the first candidate accepted (`Some`) becomes the
result, short-circuiting the scan; if an inherent candidate is accepted
the trait candidates cannot influence the result, if every inherent
candidate is rejected the result is exactly the scan of the trait
candidates, and the result is `none` precisely when the callback rejects
every candidate. -/
theorem iterate_method_candidates_contract (T : Type) (inh tr : List AssocItemId)
    (callback : Nat → Option T) :
    (Type.iterate_method_candidates (method_resolution_candidates inh tr) callback
        = (function_candidates (method_resolution_candidates inh tr)).findSome? callback)
    ∧ (∀ v, (function_candidates inh).findSome? callback = some v →
        Type.iterate_method_candidates (method_resolution_candidates inh tr) callback
          = some v)
    ∧ ((∀ f ∈ function_candidates inh, callback f = none) →
        Type.iterate_method_candidates (method_resolution_candidates inh tr) callback
          = (function_candidates tr).findSome? callback)
    ∧ (Type.iterate_method_candidates (method_resolution_candidates inh tr) callback
          = none ↔ ∀ f ∈ function_candidates (method_resolution_candidates inh tr),
            callback f = none) := by
  have h0 : Type.iterate_method_candidates (method_resolution_candidates inh tr) callback
      = (function_candidates (method_resolution_candidates inh tr)).findSome? callback :=
    iterate_dyn_loop_findSome _ callback
  have happ : function_candidates (method_resolution_candidates inh tr)
      = function_candidates inh ++ function_candidates tr :=
    function_candidates_append inh tr
  refine ⟨h0, ?_, ?_, ?_⟩
  · intro v hv
    rw [h0, happ, list_findSome_append, hv]
  · intro hnone
    rw [h0, happ, list_findSome_append, List.findSome?_eq_none.mpr hnone]
  · rw [h0, List.findSome?_eq_none]

/-- A caller filter accepting only function id 3. -/
def cb_trait_only : Nat → Option Nat :=
  fun f => if f = 3 then some 30 else none

/-- C7 witness: with inherent candidates `{fn 1, const 2}` all rejected
and trait candidate `fn 3` accepted, the scan falls through to the trait
candidates. -/
theorem iterate_method_candidates_contract_witness :
    Type.iterate_method_candidates
        (method_resolution_candidates
          [AssocItemId.FunctionId 1, AssocItemId.ConstId 2]
          [AssocItemId.FunctionId 3]) cb_trait_only
      = (function_candidates [AssocItemId.FunctionId 3]).findSome? cb_trait_only :=
  (iterate_method_candidates_contract Nat
      [AssocItemId.FunctionId 1, AssocItemId.ConstId 2]
      [AssocItemId.FunctionId 3] cb_trait_only).2.2.1 (by decide)

/-- A source map on which every expression and pattern is synthetic. -/
def sm_all_synthetic : BodySourceMap :=
  ⟨fun _ => Except.error Synthetic.synthetic,
    fun _ => Except.error Synthetic.synthetic,
    fun _ => 0⟩

/-- A syntax database with no record/match shapes. -/
def sdb_none : SyntaxDb :=
  ⟨fun _ _ => 0, fun _ => false, fun _ => false, fun _ => none⟩

/-- A body whose only diagnostic is a break-outside-of-loop at a
(synthetic) desugared expression. -/
def break_body : BodyAnalysis :=
  ⟨[], [InferenceDiagnostic.BreakOutsideOfLoop 0 true], [], [], [], []⟩

/-- C1 counterexample: a break-outside-of-loop diagnostic whose expression
maps to a synthetic node makes `DefWithBody::diagnostics` **panic**
(`.expect("break outside of loop in synthetic syntax")`) instead of
dropping the diagnostic and continuing — the claim's "never panicking ...
including break-outside-of-loop" is false; the spec-side pipeline on the
same input drops the diagnostic and yields no output. -/
theorem diagnostics_break_synthetic_panics :
    DefWithBody.diagnostics sdb_none sm_all_synthetic break_body
      = Except.error Panic.panic
    ∧ diagnostics_spec sdb_none sm_all_synthetic break_body = [] := by
  exact ⟨rfl, rfl⟩

/-- Each inference diagnostic emits as the spec pipeline does when every
break-outside-of-loop expression of the list is mapped. -/
theorem mapM_inference_ok (sm : BodySourceMap) (l : List InferenceDiagnostic)
    (hbreak : ∀ e b, InferenceDiagnostic.BreakOutsideOfLoop e b ∈ l →
      ∃ p, sm.expr_src e = Except.ok p) :
    l.mapM (emit_inference_diag sm)
      = Except.ok (l.map (emit_inference_diag_spec sm)) := by
  induction l with
  | nil => rfl
  | cons d rest ih =>
    have hd : emit_inference_diag sm d = Except.ok (emit_inference_diag_spec sm d) := by
      cases d with
      | NoSuchField e => rfl
      | BreakOutsideOfLoop e b =>
        obtain ⟨p, hp⟩ := hbreak e b (List.mem_cons_self _ _)
        simp [emit_inference_diag, emit_inference_diag_spec, hp]
      | MismatchedArgCount e x y =>
        cases h : sm.expr_src e <;>
          simp [emit_inference_diag, emit_inference_diag_spec, h]
    have ih2 := ih (fun e b hm => hbreak e b (List.mem_cons_of_mem _ hm))
    rw [List.mapM_cons, hd, ih2, List.map_cons]
    rfl

/-- C1 amended: for every per-body diagnostic kind **except**
break-outside-of-loop, a diagnostic whose node maps to a synthetic
(desugared) node is dropped and collection of the remaining diagnostics
continues — when no break-outside-of-loop diagnostic sits on a synthetic
node the whole run returns exactly the spec pipeline's output without
panicking; a break-outside-of-loop diagnostic at a synthetic node,
however, panics (the code asserts that case unreachable). (No-such-field
mapping is infallible at this call site, so it cannot be dropped.) -/
theorem diagnostics_drop_synthetic (db : SyntaxDb) (sm : BodySourceMap)
    (a : BodyAnalysis)
    (hbreak : ∀ e b, InferenceDiagnostic.BreakOutsideOfLoop e b ∈ a.inference →
      ∃ p, sm.expr_src e = Except.ok p) :
    DefWithBody.diagnostics db sm a = Except.ok (diagnostics_spec db sm a)
    ∧ (∀ e, sm.expr_src e = Except.error Synthetic.synthetic →
        (∀ exp fnd, emit_inference_diag sm
            (InferenceDiagnostic.MismatchedArgCount e exp fnd) = Except.ok [])
        ∧ emit_type_mismatch sm e = []
        ∧ emit_missing_unsafe_diag sm e = []
        ∧ (∀ v mf, emit_validation_diag db sm
            (BodyValidationDiagnostic.RecordMissingFields (Sum.inl e) v mf) = [])
        ∧ emit_validation_diag db sm
            (BodyValidationDiagnostic.ReplaceFilterMapNextWithFindMap e) = []
        ∧ (∀ unc, emit_validation_diag db sm
            (BodyValidationDiagnostic.MissingMatchArms e unc) = [])) := by
  constructor
  · have hmap := mapM_inference_ok sm a.inference hbreak
    rw [DefWithBody.diagnostics, hmap, diagnostics_spec]
    rfl
  · intro e he
    refine ⟨?_, ?_, ?_, ?_, ?_, ?_⟩
    · intro exp fnd
      simp [emit_inference_diag, he]
    · simp [emit_type_mismatch, he]
    · simp [emit_missing_unsafe_diag, he]
    · intro v mf
      simp [emit_validation_diag, he]
    · simp [emit_validation_diag, he]
    · intro unc
      simp [emit_validation_diag, he]

/-- A source map on which every node is mapped. -/
def sm_all_mapped : BodySourceMap :=
  ⟨fun _ => Except.ok 1, fun _ => Except.ok (some 1), fun _ => 2⟩

/-- A body with a mapped break diagnostic plus further stages. -/
def break_mapped_body : BodyAnalysis :=
  ⟨[AnyDiagnostic.Lowering 9], [InferenceDiagnostic.BreakOutsideOfLoop 0 true],
    [5], [6], [BodyValidationDiagnostic.ReplaceFilterMapNextWithFindMap 7], [8]⟩

/-- C1 amended witness: with the break expression mapped, the run returns
exactly the spec pipeline's diagnostics, no panic. -/
theorem diagnostics_drop_synthetic_witness :
    DefWithBody.diagnostics sdb_none sm_all_mapped break_mapped_body
      = Except.ok (diagnostics_spec sdb_none sm_all_mapped break_mapped_body) :=
  (diagnostics_drop_synthetic sdb_none sm_all_mapped break_mapped_body
      (fun e b _ => ⟨1, rfl⟩)).1
